import Mathlib

/-!
Verification of the BandSplitRNN dual-axis recurrent stack
(`src/model/modules/bandsequence.py`: `RNNModule`,
`BandSequenceModelModule`) and of the loss combination of the training
wrapper (`src/model/pl_model.py`: `PLModel.compute_losses`), shallowly
embedded over `ℚ`.

Tensors are modelled two ways, mirroring PyTorch semantics:
* nested rational lists (`T4` = batch / group / sequence / feature) for
  the arithmetic of a forward pass, and
* a flat `PT` record carrying a runtime `shape` list together with the
  row-major `data`, so that rank and axis-size checks (which PyTorch
  performs at run time) are expressible.

The recurrent primitive (`torch.nn.LSTM` / `GRU` / `RNN`) is external
library code, not part of this repository; it is embedded from its
documented recurrence equations (PyTorch gate order), with computable
rational stand-ins for the transcendental activations and for the
floating-point square root inside `nn.GroupNorm`.  No theorem below
depends on the values of those stand-ins, only on the structure of the
computation (shapes, zero initial state, per-row independence).
-/

namespace BandSplit

/-- Rational stand-in for the floating-point square root used inside
`nn.GroupNorm` (integer-square-root based; its values are never relevant
to the theorems below). -/
def qSqrt (q : ℚ) : ℚ := (Nat.sqrt (q.num.toNat * q.den) : ℚ) / (q.den : ℚ)

/-- Rational stand-in for the logistic sigmoid activation of the
recurrent gates. -/
def sigmoidQ (x : ℚ) : ℚ := 1/2 + x / (2 * (1 + |x|))

/-- Rational stand-in for the hyperbolic tangent activation. -/
def tanhQ (x : ℚ) : ℚ := x / (1 + |x|)

/-- A feature vector (innermost tensor axis). -/
abbrev Vec := List ℚ

/-- A 2-D slice: sequence of feature vectors. -/
abbrev Mat := List Vec

/-- A 3-D tensor: e.g. the pseudo-batch `[B*K, T, N]` fed to the RNN. -/
abbrev T3 := List Mat

/-- A 4-D tensor `[B, K, T, N]` as nested lists. -/
abbrev T4 := List T3

/-- Dot product of two rational vectors. -/
def dotQ (a b : Vec) : ℚ := (List.zipWith (· * ·) a b).sum

/-- One affine layer (`nn.Linear`): row `j` of the weight matrix dotted
with the input plus the `j`-th bias, for `j < outDim`. -/
def linearQ (W : List (List ℚ)) (b : List ℚ) (outDim : ℕ) (v : Vec) : Vec :=
  (List.range outDim).map (fun j => dotQ (W.getD j []) v + b.getD j 0)

/-- Row-major reinterpretation of a flat list as `B` chunks of size `K`
(the `view` operation on the leading axis). -/
def unflatten {α : Type} : ℕ → ℕ → List α → List (List α)
  | 0, _, _ => []
  | B + 1, K, l => l.take K :: unflatten B K (l.drop K)

/-- The recurrent cell variants reachable through
`getattr(torch.nn, rnn_type)` in `RNNModule.__init__`. -/
inductive RNNType where
  | elman : RNNType
  | gru : RNNType
  | lstm : RNNType
deriving DecidableEq, Repr

/-- Hidden/cell state of a recurrent direction (the second component is
used by the LSTM only). -/
abbrev RState := Vec × Vec

/-- Weights of one direction of the recurrent network, in PyTorch layout:
`wih`/`whh` stack the per-gate matrices vertically (`G*H` rows). -/
structure DirWeights where
  wih : List (List ℚ)
  whh : List (List ℚ)
  bih : List ℚ
  bhh : List ℚ
deriving DecidableEq, Repr

/-- Pre-activation of gate `g`, unit `j`:
`W_ih[g*H+j]·x + b_ih[g*H+j] + W_hh[g*H+j]·h + b_hh[g*H+j]`. -/
def gatePre (w : DirWeights) (H g : ℕ) (x h : Vec) (j : ℕ) : ℚ :=
  dotQ (w.wih.getD (g * H + j) []) x + w.bih.getD (g * H + j) 0 +
    dotQ (w.whh.getD (g * H + j) []) h + w.bhh.getD (g * H + j) 0

/-- One LSTM step (PyTorch gate order `i, f, g, o`). -/
def lstmCell (H : ℕ) (w : DirWeights) (s : RState) (x : Vec) : RState :=
  let i := (List.range H).map (fun j => sigmoidQ (gatePre w H 0 x s.1 j))
  let f := (List.range H).map (fun j => sigmoidQ (gatePre w H 1 x s.1 j))
  let g := (List.range H).map (fun j => tanhQ (gatePre w H 2 x s.1 j))
  let o := (List.range H).map (fun j => sigmoidQ (gatePre w H 3 x s.1 j))
  let c2 := (List.range H).map
    (fun j => f.getD j 0 * s.2.getD j 0 + i.getD j 0 * g.getD j 0)
  ((List.range H).map (fun j => o.getD j 0 * tanhQ (c2.getD j 0)), c2)

/-- One GRU step (PyTorch gate order `r, z, n`); the cell slot of the
state is carried through unused. -/
def gruCell (H : ℕ) (w : DirWeights) (s : RState) (x : Vec) : RState :=
  let r := (List.range H).map (fun j => sigmoidQ (gatePre w H 0 x s.1 j))
  let z := (List.range H).map (fun j => sigmoidQ (gatePre w H 1 x s.1 j))
  let n := (List.range H).map (fun j =>
    tanhQ (dotQ (w.wih.getD (2 * H + j) []) x + w.bih.getD (2 * H + j) 0 +
      r.getD j 0 * (dotQ (w.whh.getD (2 * H + j) []) s.1 + w.bhh.getD (2 * H + j) 0)))
  ((List.range H).map
    (fun j => (1 - z.getD j 0) * n.getD j 0 + z.getD j 0 * s.1.getD j 0), s.2)

/-- One vanilla (tanh) RNN step. -/
def elmanCell (H : ℕ) (w : DirWeights) (s : RState) (x : Vec) : RState :=
  ((List.range H).map (fun j => tanhQ (gatePre w H 0 x s.1 j)), s.2)

/-- Dispatch of the recurrent cell on the configured kind. -/
def cellOf : RNNType → ℕ → DirWeights → RState → Vec → RState
  | RNNType.elman => elmanCell
  | RNNType.gru => gruCell
  | RNNType.lstm => lstmCell

/-- Run a recurrent direction over a sequence from state `s`, emitting
the hidden vector after every step. -/
def runRNN (step : RState → Vec → RState) : RState → List Vec → List Vec
  | _, [] => []
  | s, x :: xs => (step s x).1 :: runRNN step (step s x) xs

/-- Parameters of one `RNNModule` (one `AxisRecurrentBlock`):
configuration dimensions plus all learned weights. -/
structure RNNModuleParams where
  groupDim : ℕ
  inputDim : ℕ
  hiddenDim : ℕ
  kind : RNNType
  bidirectional : Bool
  gnW : List ℚ
  gnB : List ℚ
  fw : DirWeights
  bw : DirWeights
  fcW : List (List ℚ)
  fcB : List ℚ
deriving DecidableEq, Repr

/-- The zero hidden/cell state of width `H`. -/
def zeroStateQ (H : ℕ) : RState := (List.replicate H 0, List.replicate H 0)

/-- The recurrent primitive applied to one pseudo-batch row, with an
explicit initial state per direction (generalisation used to state the
zero-initialisation property). -/
def rnnSeqFrom (p : RNNModuleParams) (s0f s0b : RState) (xs : List Vec) : List Vec :=
  let outF := runRNN (cellOf p.kind p.hiddenDim p.fw) s0f xs
  if p.bidirectional then
    List.zipWith (· ++ ·) outF
      ((runRNN (cellOf p.kind p.hiddenDim p.bw) s0b xs.reverse).reverse)
  else outF

/-- The recurrent primitive as called by `RNNModule.forward`: no initial
state is passed, so PyTorch zero-initialises the hidden (and, for LSTM,
cell) state of both directions on every call. -/
def rnnSeq (p : RNNModuleParams) (xs : List Vec) : List Vec :=
  let outF := runRNN (cellOf p.kind p.hiddenDim p.fw)
    (List.replicate p.hiddenDim 0, List.replicate p.hiddenDim 0) xs
  if p.bidirectional then
    List.zipWith (· ++ ·) outF
      ((runRNN (cellOf p.kind p.hiddenDim p.bw)
        (List.replicate p.hiddenDim 0, List.replicate p.hiddenDim 0) xs.reverse).reverse)
  else outF

/-- The epsilon of `nn.GroupNorm` (default `1e-5`). -/
def gnEps : ℚ := 1 / 100000

/-- `nn.GroupNorm(1, C)` on one batch element: normalise by the mean and
(biased) variance over the whole `(C, T, N)` extent, then apply the
per-channel affine parameters broadcast over the trailing axes. -/
def normElem (gw gb : List ℚ) (g : T3) : T3 :=
  let vals := (g.map List.flatten).flatten
  let n : ℚ := (vals.length : ℚ)
  let mu := vals.sum / n
  let v2 := ((vals.map (fun q => (q - mu) * (q - mu))).sum) / n
  let inv := 1 / qSqrt (v2 + gnEps)
  (List.range g.length).map (fun c =>
    (g.getD c []).map (fun m =>
      m.map (fun q => (q - mu) * inv * gw.getD c 1 + gb.getD c 0)))

/-- `self.groupnorm(x)`: GroupNorm applied independently per batch
element. -/
def groupnormQ (gw gb : List ℚ) (x : T4) : T4 := x.map (normElem gw gb)

/-- Elementwise addition of two 4-D tensors (the residual `+ x`). -/
def add4 (x y : T4) : T4 :=
  List.zipWith (fun g h =>
    List.zipWith (fun m n =>
      List.zipWith (fun v w => List.zipWith (· + ·) v w) m n) g h) x y

/-- `out.permute(0, 2, 1, 3).contiguous()`: swap axes 1 and 2; `T` is the
size of axis 2 of the input (read off `x.shape` in the source). -/
def swap12 (T : ℕ) (x : T4) : T4 :=
  x.map (fun g => (List.range T).map (fun t => g.map (fun m => m.getD t [])))

/-- Steps 1-5 of `RNNModule.forward` (lines 39-43 of the source):
groupnorm, `view(B*K, T, N)`, recurrent network, projection,
`view(B, K, T, N) + x`. -/
def residCore (p : RNNModuleParams) (B K : ℕ) (x : T4) : T4 :=
  let out1 := groupnormQ p.gnW p.gnB x
  let out2 := out1.flatten
  let out3 := out2.map (rnnSeq p)
  let out4 := out3.map (fun row => row.map (linearQ p.fcW p.fcB p.inputDim))
  add4 (unflatten B K out4) x

/-- The whole arithmetic of `RNNModule.forward` on the nested
representation: steps 1-5 followed by the unconditional final transpose
(line 44). -/
def forwardCore (p : RNNModuleParams) (B K T : ℕ) (x : T4) : T4 :=
  swap12 T (residCore p B K x)

/-- Variant of `forwardCore` with an explicit initial recurrent state
per direction (what `RNNModule.forward` would compute if it passed a
carried state to the recurrent network instead of the default). -/
def forwardCoreFrom (p : RNNModuleParams) (s0f s0b : RState) (B K T : ℕ) (x : T4) : T4 :=
  let out1 := groupnormQ p.gnW p.gnB x
  let out2 := out1.flatten
  let out3 := out2.map (rnnSeqFrom p s0f s0b)
  let out4 := out3.map (fun row => row.map (linearQ p.fcW p.fcB p.inputDim))
  swap12 T (add4 (unflatten B K out4) x)

/-- The per-row pipeline of one block before the residual add: groupnorm,
pseudo-batch flattening, recurrent network, projection. -/
def blockRows (p : RNNModuleParams) (x : T4) : T3 :=
  ((groupnormQ p.gnW p.gnB x).flatten.map (rnnSeq p)).map
    (fun row => row.map (linearQ p.fcW p.fcB p.inputDim))

/-- A runtime tensor: shape list plus row-major data, as a
`torch.Tensor` carries them. -/
structure PT where
  shape : List ℕ
  data : List ℚ
deriving DecidableEq, Repr

/-- Reinterpret flat row-major data as a nested `[B, K, T, N]` tensor. -/
def toT4 (B K T N : ℕ) (d : List ℚ) : T4 :=
  (unflatten B (K * (T * N)) d).map (fun bd =>
    (unflatten K (T * N) bd).map (fun kd => unflatten T N kd))

/-- Flatten a nested 4-D tensor back to row-major data. -/
def flatten4 (x : T4) : List ℚ :=
  (x.map (fun g => (g.map List.flatten).flatten)).flatten

/-- `RNNModule.forward` at the runtime-tensor level.  The call fails
(raises, modelled as `none`) exactly when PyTorch would raise: the
4-tuple unpacking `B, K, T, N = x.shape` needs rank 4, `self.groupnorm`
needs axis 1 to equal its channel count `group_dim_size`, and
`self.rnn` needs axis 3 to equal its `input_dim_size`. -/
def RNNModule.forwardT (p : RNNModuleParams) (x : PT) : Option PT :=
  match x.shape with
  | [B, K, T, N] =>
      if K = p.groupDim ∧ N = p.inputDim then
        some ⟨[B, T, K, N], flatten4 (forwardCore p B K T (toT4 B K T N x.data))⟩
      else none
  | _ => none

/-- Constructor arguments of `BandSequenceModelModule`. -/
structure BandCfg where
  kSubbands : ℕ
  tTimesteps : ℕ
  inputDimSize : ℕ
  hiddenDimSize : ℕ
  kind : RNNType
  bidirectional : Bool
  numLayers : ℕ
deriving DecidableEq, Repr

/-- The learned weights of one `RNNModule`, drawn at construction time. -/
structure BlockWeights where
  gnW : List ℚ
  gnB : List ℚ
  fw : DirWeights
  bw : DirWeights
  fcW : List (List ℚ)
  fcB : List ℚ
deriving DecidableEq, Repr

/-- `RNNModule(group_dim, input_dim_size, hidden_dim_size, ...)` with the
given drawn weights. -/
def mkBlock (groupDim : ℕ) (cfg : BandCfg) (w : BlockWeights) : RNNModuleParams :=
  ⟨groupDim, cfg.inputDimSize, cfg.hiddenDimSize, cfg.kind, cfg.bidirectional,
    w.gnW, w.gnB, w.fw, w.bw, w.fcW, w.fcB⟩

/-- The constructed stack: the `self.bsrnn` module list, one
`(rnn_across_t, rnn_across_k)` pair per layer. -/
structure StackModel where
  bsrnn : List (RNNModuleParams × RNNModuleParams)
deriving DecidableEq, Repr

/-- `BandSequenceModelModule.__init__`: for each of `num_layers`
iterations append `Sequential(RNNModule(k_subbands, ...),
RNNModule(t_timesteps, ...))`; `w` supplies the randomly drawn weights
of layer `i`.  The loop body runs `num_layers` times and no validation
of any argument is performed. -/
def BandSequenceModelModule.init (cfg : BandCfg) (w : ℕ → BlockWeights × BlockWeights) :
    StackModel :=
  ⟨(List.range cfg.numLayers).map (fun i =>
    (mkBlock cfg.kSubbands cfg (w i).1, mkBlock cfg.tTimesteps cfg (w i).2))⟩

/-- `BandSequenceModelModule.forward`: `for i in range(len(self.bsrnn)):
x = self.bsrnn[i](x)`, each entry being the composition of its two
blocks; an exception anywhere aborts the whole call (`Option.bind`). -/
def BandSequenceModelModule.forwardT (m : StackModel) (x : PT) : Option PT :=
  m.bsrnn.foldl
    (fun acc pr => acc.bind
      (fun y => (RNNModule.forwardT pr.1 y).bind (RNNModule.forwardT pr.2)))
    (some x)

/-- A complex spectrogram, as its real and imaginary parts
(`tensor.real` / `tensor.imag`), flattened. -/
structure CSpec where
  re : List ℚ
  im : List ℚ
deriving DecidableEq, Repr

/-- `nn.L1Loss()` with default mean reduction: mean absolute difference
over all elements. -/
def l1LossQ (a b : List ℚ) : ℚ :=
  ((List.zipWith (fun p q => |p - q|) a b).sum) / (a.length : ℚ)

/-- `PLModel.compute_losses`: the three L1 terms, the logging dictionary
in insertion order, and `loss = sum(loss_dict.values())` (Python `sum`
starts from `0`). -/
def PLModel.computeLosses (tgtFreqHat tgtFreq : CSpec) (tgtTimeHat tgtTime : List ℚ) :
    ℚ × List (String × ℚ) :=
  let lossR := l1LossQ tgtFreqHat.re tgtFreq.re
  let lossI := l1LossQ tgtFreqHat.im tgtFreq.im
  let lossT := l1LossQ tgtTimeHat tgtTime
  let lossDict := [("lossSpecR", lossR), ("lossSpecI", lossI), ("lossTime", lossT)]
  ((lossDict.map Prod.snd).foldl (· + ·) 0, lossDict)

/-- Uniform shape of a 2-D slice: `T` rows of width `N`. -/
def UniformM (m : Mat) (T N : ℕ) : Prop := m.length = T ∧ ∀ v ∈ m, v.length = N

/-- Uniform shape of a 3-D tensor: `K` slices of shape `(T, N)`. -/
def UniformG (g : T3) (K T N : ℕ) : Prop := g.length = K ∧ ∀ m ∈ g, UniformM m T N

/-- Uniform shape of a 4-D tensor: `B` elements of shape `(K, T, N)`. -/
def Uniform4 (x : T4) (B K T N : ℕ) : Prop := x.length = B ∧ ∀ g ∈ x, UniformG g K T N

/-- A runtime tensor is well-formed at shape `(B, K, T, N)` when its
shape list says so and its data has the matching row-major length. -/
def WF4 (x : PT) (B K T N : ℕ) : Prop :=
  x.shape = [B, K, T, N] ∧ x.data.length = B * (K * (T * N))

/-- All recurrent weights and biases of one direction are zero. -/
abbrev ZeroDir (w : DirWeights) : Prop :=
  (∀ r ∈ w.wih, ∀ q ∈ r, q = 0) ∧ (∀ r ∈ w.whh, ∀ q ∈ r, q = 0) ∧
    (∀ q ∈ w.bih, q = 0) ∧ (∀ q ∈ w.bhh, q = 0)

/-- Concrete direction weights, all zero, sized for a bidirectional LSTM
with `input_dim_size = hidden_dim_size = 1` (4 gates). -/
def zeroDir11 : DirWeights :=
  ⟨List.replicate 4 [0], List.replicate 4 [0], List.replicate 4 0, List.replicate 4 0⟩

/-- Concrete block: `group_dim_size = 2`, `input_dim_size = 1`,
`hidden_dim_size = 1`, bidirectional LSTM, all learned weights zero and
GroupNorm affine parameters at their init values. -/
def pZero : RNNModuleParams :=
  ⟨2, 1, 1, RNNType.lstm, true, [1, 1], [0, 0], zeroDir11, zeroDir11, [[0, 0]], [0]⟩

/-- Concrete block expecting group axis of size 1. -/
def pT1 : RNNModuleParams :=
  ⟨1, 1, 1, RNNType.lstm, true, [1], [0], zeroDir11, zeroDir11, [[0, 0]], [0]⟩

/-- A concrete all-zero input of shape `(1, 2, 1, 1)`. -/
def xZero : PT := ⟨[1, 2, 1, 1], [0, 0]⟩

/-- Concrete weights for a block with `group_dim_size = 2`. -/
def wZero : BlockWeights := ⟨[1, 1], [0, 0], zeroDir11, zeroDir11, [[0, 0]], [0]⟩

/-- Concrete weights for a block with `group_dim_size = 1`. -/
def wOne : BlockWeights := ⟨[1], [0], zeroDir11, zeroDir11, [[0, 0]], [0]⟩

/-- A minimal valid configuration: all dimensions 1, one layer. -/
def cfgOne : BandCfg := ⟨1, 1, 1, 1, RNNType.lstm, true, 1⟩

/-- A configuration with `num_layers = 0`. -/
def cfgZeroLayers : BandCfg := ⟨2, 3, 1, 1, RNNType.lstm, true, 0⟩

/-- A concrete input of shape `(1, 1, 1, 1)`. -/
def xUnit : PT := ⟨[1, 1, 1, 1], [5]⟩

/-- A concrete input of shape `(1, 2, 3, 1)`. -/
def x231 : PT := ⟨[1, 2, 3, 1], [0, 1, 2, 3, 4, 5]⟩

lemma getD_mem {α : Type} (l : List α) (d : α) (n : ℕ) (h : n < l.length) :
    l.getD n d ∈ l := by
  have hg : l.getD n d = l.get ⟨n, h⟩ := by
    simp [List.getD_eq_getElem?_getD, List.getElem?_eq_getElem h]
  rw [hg]
  exact List.get_mem l n h

lemma getD_of_all_zero (b : List ℚ) (h : ∀ q ∈ b, q = 0) (j : ℕ) :
    b.getD j 0 = 0 := by
  by_cases hj : j < b.length
  · exact h _ (getD_mem b 0 j hj)
  · simp [List.getD_eq_getElem?_getD, List.getElem?_eq_none (Nat.le_of_not_lt hj)]

lemma dotQ_zero_left (a v : Vec) (h : ∀ q ∈ a, q = 0) : dotQ a v = 0 := by
  induction a generalizing v with
  | nil => simp [dotQ]
  | cons q t ih =>
    cases v with
    | nil => simp [dotQ]
    | cons r w =>
      have hq : q = 0 := h q (by simp)
      have ht : ∀ q ∈ t, q = 0 := fun s hs => h s (by simp [hs])
      have := ih w ht
      simp only [dotQ, List.zipWith_cons_cons, List.sum_cons] at *
      rw [hq, this]; ring

lemma linearQ_length (W : List (List ℚ)) (b : List ℚ) (d : ℕ) (v : Vec) :
    (linearQ W b d v).length = d := by
  simp [linearQ]

lemma linearQ_zero (W : List (List ℚ)) (b : List ℚ) (d : ℕ) (v : Vec)
    (hW : ∀ r ∈ W, ∀ q ∈ r, q = 0) (hb : ∀ q ∈ b, q = 0) :
    linearQ W b d v = List.replicate d 0 := by
  refine List.eq_replicate_iff.2 ⟨linearQ_length W b d v, ?_⟩
  intro q hq
  simp only [linearQ, List.mem_map, List.mem_range] at hq
  obtain ⟨j, _, hj⟩ := hq
  have hrow : ∀ s ∈ W.getD j [], s = 0 := by
    by_cases hjW : j < W.length
    · exact hW _ (getD_mem W [] j hjW)
    · simp [List.getD_eq_getElem?_getD, List.getElem?_eq_none (Nat.le_of_not_lt hjW)]
  rw [← hj, dotQ_zero_left _ v hrow, getD_of_all_zero b hb j, add_zero]

lemma unflatten_length {α : Type} (B K : ℕ) (l : List α) :
    (unflatten B K l).length = B := by
  induction B generalizing l with
  | zero => simp [unflatten]
  | succ B ih => simp [unflatten, ih]

lemma unflatten_mem_length {α : Type} {B K : ℕ} {l : List α}
    (h : l.length = B * K) : ∀ c ∈ unflatten B K l, c.length = K := by
  induction B generalizing l with
  | zero => simp [unflatten]
  | succ B ih =>
    intro c hc
    simp only [unflatten, List.mem_cons] at hc
    rcases hc with hc | hc
    · subst hc
      have : K ≤ l.length := by
        rw [h, Nat.succ_mul]; exact Nat.le_add_left K (B * K)
      simp [List.length_take, Nat.min_eq_left this]
    · refine ih ?_ c hc
      rw [List.length_drop, h, Nat.succ_mul, Nat.add_sub_cancel]

lemma mem_of_mem_unflatten {α : Type} {B K : ℕ} {l : List α} {c : List α} {a : α}
    (hc : c ∈ unflatten B K l) (ha : a ∈ c) : a ∈ l := by
  induction B generalizing l with
  | zero => simp [unflatten] at hc
  | succ B ih =>
    simp only [unflatten, List.mem_cons] at hc
    rcases hc with hc | hc
    · subst hc; exact List.mem_of_mem_take ha
    · exact List.mem_of_mem_drop (ih hc)

lemma unflatten_flatten {α : Type} {B K : ℕ} {x : List (List α)}
    (hB : x.length = B) (hK : ∀ g ∈ x, g.length = K) :
    unflatten B K x.flatten = x := by
  induction x generalizing B with
  | nil => simp at hB; subst hB; simp [unflatten]
  | cons g rest ih =>
    cases B with
    | zero => simp at hB
    | succ B =>
      have hg : g.length = K := hK g (by simp)
      have hrest : ∀ c ∈ rest, c.length = K := fun c hc => hK c (by simp [hc])
      have hBr : rest.length = B := by simpa using hB
      have h1 : (g ++ rest.flatten).take K = g := by
        rw [← hg]; exact List.take_left g rest.flatten
      have h2 : (g ++ rest.flatten).drop K = rest.flatten := by
        rw [← hg]; exact List.drop_left g rest.flatten
      simp only [List.flatten_cons, unflatten]
      rw [h1, h2, ih hBr hrest]

lemma unflatten_append {α : Type} {B1 : ℕ} (B2 K : ℕ) {l1 : List α} (l2 : List α)
    (h : l1.length = B1 * K) :
    unflatten (B1 + B2) K (l1 ++ l2) = unflatten B1 K l1 ++ unflatten B2 K l2 := by
  induction B1 generalizing l1 with
  | zero =>
    have : l1 = [] := List.eq_nil_of_length_eq_zero (by simpa using h)
    subst this; simp [unflatten]
  | succ B1 ih =>
    have hK : K ≤ l1.length := by
      rw [h, Nat.succ_mul]; exact Nat.le_add_left K (B1 * K)
    have htake : (l1 ++ l2).take K = l1.take K := by
      rw [List.take_append_eq_append_take, Nat.sub_eq_zero_of_le hK]
      simp
    have hdrop : (l1 ++ l2).drop K = l1.drop K ++ l2 := by
      rw [List.drop_append_eq_append_drop, Nat.sub_eq_zero_of_le hK]
      simp
    have hlen : (l1.drop K).length = B1 * K := by
      rw [List.length_drop, h, Nat.succ_mul, Nat.add_sub_cancel]
    have hstep : B1 + 1 + B2 = (B1 + B2) + 1 := by omega
    rw [hstep]
    simp only [unflatten, htake, hdrop, ih hlen, List.cons_append]

lemma flatten_length_uniform {α : Type} {L : List (List α)} {B c : ℕ}
    (hB : L.length = B) (hc : ∀ l ∈ L, l.length = c) :
    L.flatten.length = B * c := by
  induction L generalizing B with
  | nil => simp at hB; subst hB; simp
  | cons l rest ih =>
    cases B with
    | zero => simp at hB
    | succ B =>
      have h1 : l.length = c := hc l (by simp)
      have h2 : ∀ m ∈ rest, m.length = c := fun m hm => hc m (by simp [hm])
      have h3 : rest.length = B := by simpa using hB
      simp only [List.flatten_cons, List.length_append, h1, ih h3 h2, Nat.succ_mul]
      ring

lemma runRNN_length (step : RState → Vec → RState) (s : RState) (xs : List Vec) :
    (runRNN step s xs).length = xs.length := by
  induction xs generalizing s with
  | nil => simp [runRNN]
  | cons x t ih => simp [runRNN, ih]

lemma rnnSeq_length (p : RNNModuleParams) (xs : List Vec) :
    (rnnSeq p xs).length = xs.length := by
  by_cases hb : p.bidirectional
  · simp [rnnSeq, hb, runRNN_length]
  · simp [rnnSeq, hb, runRNN_length]

lemma mem_zipWith {α β γ : Type} {f : α → β → γ} {l1 : List α} {l2 : List β} {c : γ}
    (hc : c ∈ List.zipWith f l1 l2) : ∃ a ∈ l1, ∃ b ∈ l2, c = f a b := by
  induction l1 generalizing l2 with
  | nil => simp at hc
  | cons a t ih =>
    cases l2 with
    | nil => simp at hc
    | cons b s =>
      simp only [List.zipWith_cons_cons, List.mem_cons] at hc
      rcases hc with hc | hc
      · exact ⟨a, by simp, b, by simp, hc⟩
      · obtain ⟨a', ha', b', hb', h⟩ := ih hc
        exact ⟨a', by simp [ha'], b', by simp [hb'], h⟩

lemma normElem_uniform {g : T3} {K T N : ℕ} (gw gb : List ℚ)
    (hg : UniformG g K T N) : UniformG (normElem gw gb g) K T N := by
  obtain ⟨hK, hmem⟩ := hg
  constructor
  · simp [normElem, hK]
  · intro m hm
    simp only [normElem, List.mem_map, List.mem_range] at hm
    obtain ⟨c, hc, rfl⟩ := hm
    have hmm : g.getD c [] ∈ g := getD_mem g [] c hc
    obtain ⟨hT, hrows⟩ := hmem _ hmm
    constructor
    · simp only [List.length_map]; exact hT
    · intro v hv
      simp only [List.mem_map] at hv
      obtain ⟨r, hr, rfl⟩ := hv
      simp [hrows r hr]

lemma groupnormQ_uniform {x : T4} {B K T N : ℕ} (gw gb : List ℚ)
    (hx : Uniform4 x B K T N) : Uniform4 (groupnormQ gw gb x) B K T N := by
  obtain ⟨hB, hmem⟩ := hx
  refine ⟨by simp [groupnormQ, hB], ?_⟩
  intro g hg
  simp only [groupnormQ, List.mem_map] at hg
  obtain ⟨g0, hg0, rfl⟩ := hg
  exact normElem_uniform gw gb (hmem g0 hg0)

lemma swap12_uniform {a : T4} {B K T N : ℕ}
    (ha : Uniform4 a B K T N) : Uniform4 (swap12 T a) B T K N := by
  obtain ⟨hB, hmem⟩ := ha
  refine ⟨by simp [swap12, hB], ?_⟩
  intro g hg
  simp only [swap12, List.mem_map] at hg
  obtain ⟨g0, hg0, rfl⟩ := hg
  obtain ⟨hK, hmats⟩ := hmem g0 hg0
  constructor
  · simp
  · intro m hm
    simp only [List.mem_map, List.mem_range] at hm
    obtain ⟨t, ht, rfl⟩ := hm
    constructor
    · simp [hK]
    · intro v hv
      simp only [List.mem_map] at hv
      obtain ⟨m0, hm0, rfl⟩ := hv
      obtain ⟨hT0, hrows⟩ := hmats m0 hm0
      have htm : t < m0.length := by rw [hT0]; exact ht
      exact hrows _ (getD_mem m0 [] t htm)

lemma add4_uniform {x y : T4} {B K T N : ℕ}
    (hx : Uniform4 x B K T N) (hy : Uniform4 y B K T N) :
    Uniform4 (add4 x y) B K T N := by
  obtain ⟨hxB, hxm⟩ := hx
  obtain ⟨hyB, hym⟩ := hy
  refine ⟨by simp [add4, List.length_zipWith, hxB, hyB], ?_⟩
  intro g hg
  obtain ⟨gx, hgx, gy, hgy, rfl⟩ := mem_zipWith hg
  obtain ⟨hgxK, hgxm⟩ := hxm gx hgx
  obtain ⟨hgyK, hgym⟩ := hym gy hgy
  refine ⟨by simp [List.length_zipWith, hgxK, hgyK], ?_⟩
  intro m hm
  obtain ⟨mx, hmx, my, hmy, rfl⟩ := mem_zipWith hm
  obtain ⟨hmxT, hmxv⟩ := hgxm mx hmx
  obtain ⟨hmyT, hmyv⟩ := hgym my hmy
  refine ⟨by simp [List.length_zipWith, hmxT, hmyT], ?_⟩
  intro v hv
  obtain ⟨vx, hvx, vy, hvy, rfl⟩ := mem_zipWith hv
  simp [List.length_zipWith, hmxv vx hvx, hmyv vy hvy]

lemma vecAdd_zero {N : ℕ} {v : Vec} (h : v.length = N) :
    List.zipWith (· + ·) (List.replicate N (0 : ℚ)) v = v := by
  induction v generalizing N with
  | nil => simp
  | cons a t ih =>
    cases N with
    | zero => simp at h
    | succ m => simp_all [List.replicate_succ]

lemma matAdd_zero {T N : ℕ} {um m : Mat} (hm : UniformM m T N)
    (hum : um.length = T) (hz : ∀ v ∈ um, v = List.replicate N 0) :
    List.zipWith (fun v w => List.zipWith (· + ·) v w) um m = m := by
  obtain ⟨hmT, hmv⟩ := hm
  induction um generalizing m T with
  | nil =>
    cases m with
    | nil => simp
    | cons w mt => simp at hum; rw [← hum] at hmT; simp at hmT
  | cons v ut ih =>
    cases m with
    | nil => simp
    | cons w mt =>
      cases T with
      | zero => simp at hum
      | succ T0 =>
        have hv : v = List.replicate N 0 := hz v (by simp)
        have hw : w.length = N := hmv w (by simp)
        have h1 : List.zipWith (· + ·) v w = w := by rw [hv]; exact vecAdd_zero hw
        have h2 : List.zipWith (fun v w => List.zipWith (· + ·) v w) ut mt = mt := by
          refine ih (T := T0) (by simpa using hum)
            (fun v' hv' => hz v' (by simp [hv'])) (by simpa using hmT)
            (fun v' hv' => hmv v' (by simp [hv']))
        simp only [List.zipWith_cons_cons, h1, h2]

lemma gAdd_zero {K T N : ℕ} {ug g : T3} (hg : UniformG g K T N)
    (hug : ug.length = K) (humT : ∀ m ∈ ug, m.length = T)
    (hz : ∀ m ∈ ug, ∀ v ∈ m, v = List.replicate N 0) :
    List.zipWith (fun m n => List.zipWith (fun v w => List.zipWith (· + ·) v w) m n) ug g
      = g := by
  obtain ⟨hgK, hgm⟩ := hg
  induction ug generalizing g K with
  | nil =>
    cases g with
    | nil => simp
    | cons m gt => simp at hug; rw [← hug] at hgK; simp at hgK
  | cons um ut ih =>
    cases g with
    | nil => simp
    | cons m gt =>
      cases K with
      | zero => simp at hug
      | succ K0 =>
        have h1 := matAdd_zero (hgm m (by simp)) (humT um (by simp)) (hz um (by simp))
        have h2 : List.zipWith
            (fun m n => List.zipWith (fun v w => List.zipWith (· + ·) v w) m n) ut gt
              = gt := by
          refine ih (K := K0) (by simpa using hug)
            (fun m' hm' => humT m' (by simp [hm']))
            (fun m' hm' => hz m' (by simp [hm'])) (by simpa using hgK)
            (fun m' hm' => hgm m' (by simp [hm']))
        simp only [List.zipWith_cons_cons, h1, h2]

lemma add4_zero_left {B K T N : ℕ} {u x : T4} (hx : Uniform4 x B K T N)
    (huB : u.length = B) (hugK : ∀ g ∈ u, g.length = K)
    (humT : ∀ g ∈ u, ∀ m ∈ g, m.length = T)
    (hz : ∀ g ∈ u, ∀ m ∈ g, ∀ v ∈ m, v = List.replicate N 0) :
    add4 u x = x := by
  obtain ⟨hxB, hxm⟩ := hx
  unfold add4
  induction u generalizing x B with
  | nil =>
    cases x with
    | nil => simp
    | cons g xt => simp at huB; rw [← huB] at hxB; simp at hxB
  | cons ug ut ih =>
    cases x with
    | nil => simp
    | cons g xt =>
      cases B with
      | zero => simp at huB
      | succ B0 =>
        have h1 := gAdd_zero (hxm g (by simp)) (hugK ug (by simp))
          (humT ug (by simp)) (hz ug (by simp))
        have h2 : List.zipWith
            (fun g h =>
              List.zipWith (fun m n => List.zipWith (fun v w =>
                List.zipWith (· + ·) v w) m n) g h) ut xt = xt := by
          refine ih (B := B0) (by simpa using huB)
            (fun g' hg' => hugK g' (by simp [hg']))
            (fun g' hg' => humT g' (by simp [hg']))
            (fun g' hg' => hz g' (by simp [hg'])) (by simpa using hxB)
            (fun g' hg' => hxm g' (by simp [hg']))
        simp only [List.zipWith_cons_cons, h1, h2]

lemma residCore_uniform {p : RNNModuleParams} {B K T N : ℕ} {x : T4}
    (hx : Uniform4 x B K T N) (hN : p.inputDim = N) :
    Uniform4 (residCore p B K x) B K T N := by
  obtain ⟨h1B, h1m⟩ := groupnormQ_uniform p.gnW p.gnB hx
  have hout2len : (groupnormQ p.gnW p.gnB x).flatten.length = B * K :=
    flatten_length_uniform h1B (fun g hg => (h1m g hg).1)
  have hout2mem : ∀ m ∈ (groupnormQ p.gnW p.gnB x).flatten, UniformM m T N := by
    intro m hm
    rw [List.mem_flatten] at hm
    obtain ⟨g, hg, hmg⟩ := hm
    exact (h1m g hg).2 m hmg
  have hre : residCore p B K x =
      add4 (unflatten B K
        (((groupnormQ p.gnW p.gnB x).flatten.map (rnnSeq p)).map
          (fun row => row.map (linearQ p.fcW p.fcB p.inputDim)))) x := rfl
  have hout4len :
      (((groupnormQ p.gnW p.gnB x).flatten.map (rnnSeq p)).map
        (fun row => row.map (linearQ p.fcW p.fcB p.inputDim))).length = B * K := by
    simp only [List.length_map]
    exact hout2len
  have hout4mem : ∀ m ∈ ((groupnormQ p.gnW p.gnB x).flatten.map (rnnSeq p)).map
      (fun row => row.map (linearQ p.fcW p.fcB p.inputDim)), UniformM m T N := by
    intro m hm
    simp only [List.mem_map] at hm
    obtain ⟨row, hrow, rfl⟩ := hm
    obtain ⟨row0, hrow0, rfl⟩ := hrow
    refine ⟨?_, ?_⟩
    · simp only [List.length_map, rnnSeq_length]
      exact (hout2mem row0 hrow0).1
    · intro v hv
      simp only [List.mem_map] at hv
      obtain ⟨v0, _, rfl⟩ := hv
      rw [linearQ_length, hN]
  rw [hre]
  refine add4_uniform ⟨unflatten_length B K _, ?_⟩ hx
  intro c hc
  refine ⟨unflatten_mem_length hout4len c hc, ?_⟩
  intro m hm
  exact hout4mem m (mem_of_mem_unflatten hc hm)

lemma forwardCore_uniform {p : RNNModuleParams} {B K T N : ℕ} {x : T4}
    (hx : Uniform4 x B K T N) (hN : p.inputDim = N) :
    Uniform4 (forwardCore p B K T x) B T K N :=
  swap12_uniform (residCore_uniform hx hN)

lemma toT4_uniform {B K T N : ℕ} {d : List ℚ}
    (hd : d.length = B * (K * (T * N))) : Uniform4 (toT4 B K T N d) B K T N := by
  refine ⟨by simp [toT4, unflatten_length], ?_⟩
  intro g hg
  simp only [toT4, List.mem_map] at hg
  obtain ⟨bd, hbd, rfl⟩ := hg
  have hbdlen : bd.length = K * (T * N) := unflatten_mem_length hd bd hbd
  refine ⟨by simp [unflatten_length], ?_⟩
  intro m hm
  simp only [List.mem_map] at hm
  obtain ⟨kd, hkd, rfl⟩ := hm
  have hkdlen : kd.length = T * N := unflatten_mem_length hbdlen kd hkd
  exact ⟨unflatten_length T N kd, unflatten_mem_length hkdlen⟩

lemma flatten4_length {x : T4} {B K T N : ℕ} (hx : Uniform4 x B K T N) :
    (flatten4 x).length = B * (K * (T * N)) := by
  obtain ⟨hB, hmem⟩ := hx
  refine flatten_length_uniform (by simp [hB]) ?_
  intro l hl
  simp only [List.mem_map] at hl
  obtain ⟨g, hg, rfl⟩ := hl
  obtain ⟨hK, hmats⟩ := hmem g hg
  refine flatten_length_uniform (by simp [hK]) ?_
  intro l2 hl2
  simp only [List.mem_map] at hl2
  obtain ⟨m, hm, rfl⟩ := hl2
  obtain ⟨hT, hrows⟩ := hmats m hm
  exact flatten_length_uniform hT hrows

lemma forwardT_wf {p : RNNModuleParams} {x : PT} {B K T N : ℕ}
    (hx : WF4 x B K T N) (hK : p.groupDim = K) (hN : p.inputDim = N) :
    RNNModule.forwardT p x =
      some ⟨[B, T, K, N], flatten4 (forwardCore p B K T (toT4 B K T N x.data))⟩ ∧
    WF4 (⟨[B, T, K, N],
      flatten4 (forwardCore p B K T (toT4 B K T N x.data))⟩ : PT) B T K N := by
  obtain ⟨hs, hd⟩ := hx
  refine ⟨?_, rfl, ?_⟩
  · simp [RNNModule.forwardT, hs, hK, hN]
  · have h4 := forwardCore_uniform (toT4_uniform (d := x.data) hd) hN
    exact flatten4_length h4

lemma stackFold_wf (blocks : List (RNNModuleParams × RNNModuleParams)) :
    ∀ (x : PT) {B K T N : ℕ},
    (∀ pr ∈ blocks, pr.1.groupDim = K ∧ pr.1.inputDim = N ∧
      pr.2.groupDim = T ∧ pr.2.inputDim = N) →
    WF4 x B K T N →
    ∃ y, blocks.foldl
      (fun acc pr => acc.bind
        (fun z => (RNNModule.forwardT pr.1 z).bind (RNNModule.forwardT pr.2)))
      (some x) = some y ∧ WF4 y B K T N := by
  induction blocks with
  | nil => intro x B K T N _ hx; exact ⟨x, rfl, hx⟩
  | cons pr rest ih =>
    intro x B K T N hdims hx
    obtain ⟨h1K, h1N, h2T, h2N⟩ := hdims pr (by simp)
    obtain ⟨e1, w1⟩ := forwardT_wf hx h1K h1N
    obtain ⟨e2, w2⟩ := forwardT_wf w1 h2T h2N
    have hrest : ∀ q ∈ rest, q.1.groupDim = K ∧ q.1.inputDim = N ∧
        q.2.groupDim = T ∧ q.2.inputDim = N := fun q hq => hdims q (by simp [hq])
    obtain ⟨y, hy, wy⟩ := ih _ hrest w2
    refine ⟨y, ?_, wy⟩
    simp only [List.foldl_cons, Option.some_bind, e1, e2]
    exact hy

lemma residCore_eq_blockRows (p : RNNModuleParams) (B K : ℕ) (x : T4) :
    residCore p B K x = add4 (unflatten B K (blockRows p x)) x := rfl

lemma blockRows_append (p : RNNModuleParams) (a b : T4) :
    blockRows p (a ++ b) = blockRows p a ++ blockRows p b := by
  simp [blockRows, groupnormQ]

lemma blockRows_length {p : RNNModuleParams} {x : T4} {B K T N : ℕ}
    (hx : Uniform4 x B K T N) : (blockRows p x).length = B * K := by
  obtain ⟨hB, hm⟩ := groupnormQ_uniform p.gnW p.gnB hx
  simp only [blockRows, List.length_map]
  exact flatten_length_uniform hB (fun g hg => (hm g hg).1)

lemma add4_append {u v x y : T4} (h : u.length = x.length) :
    add4 (u ++ v) (x ++ y) = add4 u x ++ add4 v y := by
  unfold add4
  exact List.zipWith_append _ _ _ _ _ h

lemma swap12_append (T : ℕ) (a b : T4) :
    swap12 T (a ++ b) = swap12 T a ++ swap12 T b := by
  simp [swap12]

lemma residCore_append {p : RNNModuleParams} {B1 B2 K T N : ℕ} {a b : T4}
    (ha : Uniform4 a B1 K T N) (hb : Uniform4 b B2 K T N) :
    residCore p (B1 + B2) K (a ++ b) = residCore p B1 K a ++ residCore p B2 K b := by
  rw [residCore_eq_blockRows, residCore_eq_blockRows, residCore_eq_blockRows,
    blockRows_append, unflatten_append B2 K (blockRows p b) (blockRows_length ha),
    add4_append (by rw [unflatten_length, ha.1])]

lemma forwardCore_append {p : RNNModuleParams} {B1 B2 K T N : ℕ} {a b : T4}
    (ha : Uniform4 a B1 K T N) (hb : Uniform4 b B2 K T N) :
    forwardCore p (B1 + B2) K T (a ++ b) =
      forwardCore p B1 K T a ++ forwardCore p B2 K T b := by
  unfold forwardCore
  rw [residCore_append ha hb, swap12_append]

lemma toT4_append {B1 : ℕ} (B2 K T N : ℕ) {d1 : List ℚ} (d2 : List ℚ)
    (h : d1.length = B1 * (K * (T * N))) :
    toT4 (B1 + B2) K T N (d1 ++ d2) = toT4 B1 K T N d1 ++ toT4 B2 K T N d2 := by
  unfold toT4
  rw [unflatten_append B2 (K * (T * N)) d2 h, List.map_append]

lemma flatten4_append (a b : T4) : flatten4 (a ++ b) = flatten4 a ++ flatten4 b := by
  simp [flatten4]

lemma forwardT_append {p : RNNModuleParams} {x y : PT} {B1 B2 K T N : ℕ}
    (hx : WF4 x B1 K T N) (hy : WF4 y B2 K T N)
    (hK : p.groupDim = K) (hN : p.inputDim = N) :
    RNNModule.forwardT p ⟨[B1 + B2, K, T, N], x.data ++ y.data⟩ =
      some ⟨[B1 + B2, T, K, N],
        flatten4 (forwardCore p B1 K T (toT4 B1 K T N x.data)) ++
        flatten4 (forwardCore p B2 K T (toT4 B2 K T N y.data))⟩ := by
  have hcat : WF4 (⟨[B1 + B2, K, T, N], x.data ++ y.data⟩ : PT) (B1 + B2) K T N := by
    refine ⟨rfl, ?_⟩
    simp only [List.length_append, hx.2, hy.2]
    ring
  have h1 := (forwardT_wf hcat hK hN).1
  rw [h1]
  have hdata : toT4 (B1 + B2) K T N
      ((⟨[B1 + B2, K, T, N], x.data ++ y.data⟩ : PT).data) =
      toT4 B1 K T N x.data ++ toT4 B2 K T N y.data :=
    toT4_append B2 K T N y.data hx.2
  rw [hdata, forwardCore_append (toT4_uniform hx.2) (toT4_uniform hy.2), flatten4_append]

lemma stackFold_append (blocks : List (RNNModuleParams × RNNModuleParams)) :
    ∀ (x y : PT) {B1 B2 K T N : ℕ},
    (∀ pr ∈ blocks, pr.1.groupDim = K ∧ pr.1.inputDim = N ∧
      pr.2.groupDim = T ∧ pr.2.inputDim = N) →
    WF4 x B1 K T N → WF4 y B2 K T N →
    ∃ zx zy,
      blocks.foldl
        (fun acc pr => acc.bind
          (fun z => (RNNModule.forwardT pr.1 z).bind (RNNModule.forwardT pr.2)))
        (some x) = some zx ∧
      blocks.foldl
        (fun acc pr => acc.bind
          (fun z => (RNNModule.forwardT pr.1 z).bind (RNNModule.forwardT pr.2)))
        (some y) = some zy ∧
      blocks.foldl
        (fun acc pr => acc.bind
          (fun z => (RNNModule.forwardT pr.1 z).bind (RNNModule.forwardT pr.2)))
        (some ⟨[B1 + B2, K, T, N], x.data ++ y.data⟩) =
        some ⟨[B1 + B2, K, T, N], zx.data ++ zy.data⟩ ∧
      WF4 zx B1 K T N ∧ WF4 zy B2 K T N := by
  induction blocks with
  | nil =>
    intro x y B1 B2 K T N _ hx hy
    refine ⟨x, y, rfl, rfl, rfl, hx, hy⟩
  | cons pr rest ih =>
    intro x y B1 B2 K T N hdims hx hy
    obtain ⟨h1K, h1N, h2T, h2N⟩ := hdims pr (by simp)
    have hrest : ∀ q ∈ rest, q.1.groupDim = K ∧ q.1.inputDim = N ∧
        q.2.groupDim = T ∧ q.2.inputDim = N := fun q hq => hdims q (by simp [hq])
    obtain ⟨ex1, wx1⟩ := forwardT_wf hx h1K h1N
    obtain ⟨ey1, wy1⟩ := forwardT_wf hy h1K h1N
    obtain ⟨ex2, wx2⟩ := forwardT_wf wx1 h2T h2N
    obtain ⟨ey2, wy2⟩ := forwardT_wf wy1 h2T h2N
    have ecat1 := forwardT_append hx hy h1K h1N
    have ecat2 := forwardT_append wx1 wy1 h2T h2N
    obtain ⟨zx, zy, hzx, hzy, hzcat, wzx, wzy⟩ := ih _ _ hrest wx2 wy2
    refine ⟨zx, zy, ?_, ?_, ?_, wzx, wzy⟩
    · simp only [List.foldl_cons, Option.some_bind, ex1, ex2]
      exact hzx
    · simp only [List.foldl_cons, Option.some_bind, ey1, ey2]
      exact hzy
    · simp only [List.foldl_cons, Option.some_bind, ecat1, ecat2]
      exact hzcat

lemma init_blocks_dims (cfg : BandCfg) (w : ℕ → BlockWeights × BlockWeights) :
    ∀ pr ∈ (BandSequenceModelModule.init cfg w).bsrnn,
      pr.1.groupDim = cfg.kSubbands ∧ pr.1.inputDim = cfg.inputDimSize ∧
      pr.2.groupDim = cfg.tTimesteps ∧ pr.2.inputDim = cfg.inputDimSize := by
  intro pr hpr
  simp only [BandSequenceModelModule.init, List.mem_map, List.mem_range] at hpr
  obtain ⟨i, _, rfl⟩ := hpr
  exact ⟨rfl, rfl, rfl, rfl⟩

lemma residCore_zero {p : RNNModuleParams} {B K T N : ℕ} {x : T4}
    (hx : Uniform4 x B K T N) (hN : p.inputDim = N)
    (hW : ∀ r ∈ p.fcW, ∀ q ∈ r, q = 0) (hb : ∀ q ∈ p.fcB, q = 0) :
    residCore p B K x = x := by
  rw [residCore_eq_blockRows]
  refine add4_zero_left hx (unflatten_length B K _)
    (unflatten_mem_length (blockRows_length hx)) ?_ ?_
  · intro g hg m hm
    have hmem : m ∈ blockRows p x := mem_of_mem_unflatten hg hm
    simp only [blockRows, List.mem_map] at hmem
    obtain ⟨row, hrow, rfl⟩ := hmem
    obtain ⟨row0, hrow0, rfl⟩ := hrow
    simp only [List.length_map, rnnSeq_length]
    obtain ⟨hgB, hgm⟩ := groupnormQ_uniform p.gnW p.gnB hx
    rw [List.mem_flatten] at hrow0
    obtain ⟨g0, hg0, hr0⟩ := hrow0
    exact ((hgm g0 hg0).2 row0 hr0).1
  · intro g hg m hm v hv
    have hmem : m ∈ blockRows p x := mem_of_mem_unflatten hg hm
    simp only [blockRows, List.mem_map] at hmem
    obtain ⟨row, hrow, rfl⟩ := hmem
    obtain ⟨row0, _, rfl⟩ := hrow
    simp only [List.mem_map] at hv
    obtain ⟨v0, _, rfl⟩ := hv
    rw [linearQ_zero p.fcW p.fcB p.inputDim v0 hW hb, hN]

/-- C1: for every valid configuration (positive `k_subbands`,
`t_timesteps`, `input_dim_size`, `hidden_dim_size`, supported recurrent
kind, `num_layers ≥ 1`) and every input of shape
`(B, k_subbands, t_timesteps, input_dim_size)`, the stack's forward pass
succeeds and returns a tensor whose shape equals the input's shape. -/
theorem claim_C1 (cfg : BandCfg) (w : ℕ → BlockWeights × BlockWeights) (x : PT) (B : ℕ)
    (hpos : 0 < cfg.kSubbands ∧ 0 < cfg.tTimesteps ∧ 0 < cfg.inputDimSize ∧
      0 < cfg.hiddenDimSize ∧ 1 ≤ cfg.numLayers)
    (hx : WF4 x B cfg.kSubbands cfg.tTimesteps cfg.inputDimSize) :
    ∃ y, BandSequenceModelModule.forwardT (BandSequenceModelModule.init cfg w) x
      = some y ∧ y.shape = x.shape := by
  obtain ⟨y, hy, wy⟩ :=
    stackFold_wf (BandSequenceModelModule.init cfg w).bsrnn x (init_blocks_dims cfg w) hx
  exact ⟨y, hy, by rw [wy.1, hx.1]⟩

/-- C1 witness: a concrete valid configuration and input on which the
hypotheses of `claim_C1` hold. -/
theorem claim_C1_witness :
    (0 < cfgOne.kSubbands ∧ 0 < cfgOne.tTimesteps ∧ 0 < cfgOne.inputDimSize ∧
      0 < cfgOne.hiddenDimSize ∧ 1 ≤ cfgOne.numLayers) ∧
    WF4 xUnit 1 cfgOne.kSubbands cfgOne.tTimesteps cfgOne.inputDimSize ∧
    ∃ y, BandSequenceModelModule.forwardT
      (BandSequenceModelModule.init cfgOne (fun _ => (wOne, wOne))) xUnit
      = some y ∧ y.shape = xUnit.shape :=
  ⟨by decide, ⟨rfl, rfl⟩,
    claim_C1 cfgOne (fun _ => (wOne, wOne)) xUnit 1 (by decide) ⟨rfl, rfl⟩⟩

lemma groupnormQ_xZero :
    groupnormQ pZero.gnW pZero.gnB (toT4 1 2 1 1 xZero.data) = toT4 1 2 1 1 xZero.data := by
  have h : toT4 1 2 1 1 xZero.data = [[[[0]], [[0]]]] := rfl
  rw [h]
  show groupnormQ [1, 1] [0, 0] [[[[0]], [[0]]]] = [[[[0]], [[0]]]]
  norm_num [groupnormQ, normElem, List.range_succ, List.getD]

/-- C2 counterexample: with all recurrent and projection weights zero
and the normalization acting as the identity on the input, the block's
forward output is NOT equal to the input: the unconditional final
transpose of `RNNModule.forward` swaps axes 1 and 2, so the output has
shape `(1, 1, 2, 1)` while the input has shape `(1, 2, 1, 1)`. -/
theorem claim_C2_cex :
    ZeroDir pZero.fw ∧ ZeroDir pZero.bw ∧
    (∀ r ∈ pZero.fcW, ∀ q ∈ r, q = 0) ∧ (∀ q ∈ pZero.fcB, q = 0) ∧
    groupnormQ pZero.gnW pZero.gnB (toT4 1 2 1 1 xZero.data) = toT4 1 2 1 1 xZero.data ∧
    RNNModule.forwardT pZero xZero ≠ some xZero := by
  refine ⟨by decide, by decide, by decide, by decide, groupnormQ_xZero, ?_⟩
  have h := (forwardT_wf (p := pZero) (x := xZero) (B := 1) (K := 2) (T := 1) (N := 1)
    ⟨rfl, rfl⟩ rfl rfl).1
  rw [h]
  intro hcontra
  have hsh : ([1, 1, 2, 1] : List ℕ) = xZero.shape := congrArg PT.shape
    (Option.some.inj hcontra)
  simp [xZero] at hsh

/-- C2 (amended): with all recurrent-network and projection weights
zero and identity normalization, `RNNModule.forward` returns the input
with axes 1 and 2 swapped (the residual result equals the input exactly;
the block's unconditional final transpose is then applied to it). -/
theorem claim_C2 (p : RNNModuleParams) (x : PT) (B K T N : ℕ)
    (hs : x.shape = [B, K, T, N]) (hd : x.data.length = B * (K * (T * N)))
    (hK : p.groupDim = K) (hN : p.inputDim = N)
    (hfw : ZeroDir p.fw) (hbw : ZeroDir p.bw)
    (hfcW : ∀ r ∈ p.fcW, ∀ q ∈ r, q = 0) (hfcB : ∀ q ∈ p.fcB, q = 0)
    (hgn : groupnormQ p.gnW p.gnB (toT4 B K T N x.data) = toT4 B K T N x.data) :
    RNNModule.forwardT p x =
      some ⟨[B, T, K, N], flatten4 (swap12 T (toT4 B K T N x.data))⟩ := by
  have h1 := (forwardT_wf (⟨hs, hd⟩ : WF4 x B K T N) hK hN).1
  rw [h1]
  unfold forwardCore
  rw [residCore_zero (toT4_uniform hd) hN hfcW hfcB]

/-- C2 witness: the amended statement instantiated at the concrete
zero-weight block and all-zero input. -/
theorem claim_C2_witness :
    (ZeroDir pZero.fw ∧ ZeroDir pZero.bw ∧
      (∀ r ∈ pZero.fcW, ∀ q ∈ r, q = 0) ∧ (∀ q ∈ pZero.fcB, q = 0) ∧
      groupnormQ pZero.gnW pZero.gnB (toT4 1 2 1 1 xZero.data) = toT4 1 2 1 1 xZero.data) ∧
    RNNModule.forwardT pZero xZero =
      some ⟨[1, 1, 2, 1], flatten4 (swap12 1 (toT4 1 2 1 1 xZero.data))⟩ :=
  ⟨⟨by decide, by decide, by decide, by decide, groupnormQ_xZero⟩,
    claim_C2 pZero xZero 1 2 1 1 rfl rfl rfl rfl (by decide) (by decide)
      (by decide) (by decide) groupnormQ_xZero⟩

/-- C3 counterexample: constructing the stack with `num_layers = 0` does
NOT fail: the constructor's loop body runs zero times, yielding a stack
whose module list is empty, and its forward pass is a normal (identity)
function — there is no ConfigError path in the code. -/
theorem claim_C3_cex :
    (BandSequenceModelModule.init cfgZeroLayers (fun _ => (wZero, wZero))).bsrnn.length = 0 ∧
    BandSequenceModelModule.forwardT
      (BandSequenceModelModule.init cfgZeroLayers (fun _ => (wZero, wZero))) x231
      = some x231 :=
  ⟨rfl, rfl⟩

/-- C3 (amended): constructing the stack with `num_layers = 0` succeeds
without any error — the constructor performs no validation of
`num_layers` — and produces a stack with an empty block list whose
forward pass returns its input unchanged. -/
theorem claim_C3 (cfg : BandCfg) (w : ℕ → BlockWeights × BlockWeights)
    (h : cfg.numLayers = 0) :
    (BandSequenceModelModule.init cfg w).bsrnn = [] ∧
    ∀ x, BandSequenceModelModule.forwardT (BandSequenceModelModule.init cfg w) x
      = some x := by
  constructor
  · simp [BandSequenceModelModule.init, h]
  · intro x
    simp [BandSequenceModelModule.forwardT, BandSequenceModelModule.init, h]

/-- C3 witness: the amended statement instantiated at a concrete
configuration with `num_layers = 0`. -/
theorem claim_C3_witness :
    cfgZeroLayers.numLayers = 0 ∧
    ((BandSequenceModelModule.init cfgZeroLayers (fun _ => (wZero, wZero))).bsrnn = [] ∧
    ∀ x, BandSequenceModelModule.forwardT
      (BandSequenceModelModule.init cfgZeroLayers (fun _ => (wZero, wZero))) x = some x) :=
  ⟨rfl, claim_C3 cfgZeroLayers (fun _ => (wZero, wZero)) rfl⟩

/-- C4: on a valid 4-D input, `RNNModule.forward` returns exactly the
axes-1-and-2 transpose of the residual-added result; the output shape is
the input shape with axes 1 and 2 exchanged, and the feature-axis width
(axis 3) is unchanged and equals `input_dim_size`. -/
theorem claim_C4 (p : RNNModuleParams) (x : PT) (B K T N : ℕ)
    (hs : x.shape = [B, K, T, N]) (hK : p.groupDim = K) (hN : p.inputDim = N) :
    RNNModule.forwardT p x =
      some ⟨[B, T, K, N], flatten4 (swap12 T (residCore p B K (toT4 B K T N x.data)))⟩ ∧
    ([B, T, K, N] : List ℕ).getD 3 0 = p.inputDim := by
  constructor
  · simp [RNNModule.forwardT, hs, hK, hN, forwardCore]
  · simpa using hN.symm

/-- C4 witness: the statement instantiated at the concrete block and
input of shape `(1, 2, 1, 1)`. -/
theorem claim_C4_witness :
    xZero.shape = [1, 2, 1, 1] ∧ pZero.groupDim = 2 ∧ pZero.inputDim = 1 ∧
    (RNNModule.forwardT pZero xZero =
      some ⟨[1, 1, 2, 1], flatten4 (swap12 1 (residCore pZero 1 2 (toT4 1 2 1 1 xZero.data)))⟩ ∧
    ([1, 1, 2, 1] : List ℕ).getD 3 0 = pZero.inputDim) :=
  ⟨rfl, rfl, rfl, claim_C4 pZero xZero 1 2 1 1 rfl rfl rfl⟩

/-- C5: applying a block configured with `group_dim_size = K` and then a
block configured with `group_dim_size = T` to a valid input of shape
`(B, K, T, N)` succeeds and returns a tensor in the original axis order
`(B, K, T, N)`: the two axis-1/axis-2 swaps compose to the identity on
the layout. -/
theorem claim_C5 (p1 p2 : RNNModuleParams) (x : PT) (B K T N : ℕ)
    (hx : WF4 x B K T N) (h1K : p1.groupDim = K) (h1N : p1.inputDim = N)
    (h2T : p2.groupDim = T) (h2N : p2.inputDim = N) :
    ∃ y, (RNNModule.forwardT p1 x).bind (RNNModule.forwardT p2) = some y ∧
      y.shape = x.shape := by
  obtain ⟨e1, w1⟩ := forwardT_wf hx h1K h1N
  obtain ⟨e2, w2⟩ := forwardT_wf w1 h2T h2N
  exact ⟨_, by rw [e1, Option.some_bind, e2], by rw [w2.1, hx.1]⟩

/-- C5 witness: the dual-axis pair applied to a concrete input of shape
`(1, 2, 1, 1)` with compatible concrete blocks. -/
theorem claim_C5_witness :
    WF4 xZero 1 2 1 1 ∧ pZero.groupDim = 2 ∧ pZero.inputDim = 1 ∧
    pT1.groupDim = 1 ∧ pT1.inputDim = 1 ∧
    ∃ y, (RNNModule.forwardT pZero xZero).bind (RNNModule.forwardT pT1) = some y ∧
      y.shape = xZero.shape :=
  ⟨⟨rfl, rfl⟩, rfl, rfl, rfl, rfl,
    claim_C5 pZero pT1 xZero 1 2 1 1 ⟨rfl, rfl⟩ rfl rfl rfl rfl⟩

/-- C6: `RNNModule.forward` fails (raises) exactly when the input is not
4-dimensional, or the group axis (axis 1) size differs from the
configured `group_dim_size`, or the feature axis (axis 3) size differs
from the configured `input_dim_size`; under the matching-shape
precondition the error branch is unreachable. -/
theorem claim_C6 (p : RNNModuleParams) (x : PT) :
    RNNModule.forwardT p x = none ↔
      x.shape.length ≠ 4 ∨ x.shape.getD 1 0 ≠ p.groupDim ∨
        x.shape.getD 3 0 ≠ p.inputDim := by
  rcases x with ⟨s, d⟩
  match s with
  | [] => simp [RNNModule.forwardT]
  | [a] => simp [RNNModule.forwardT]
  | [a, b] => simp [RNNModule.forwardT]
  | [a, b, c] => simp [RNNModule.forwardT]
  | [a, b, c, e] =>
    by_cases h1 : b = p.groupDim <;> by_cases h2 : e = p.inputDim <;>
      simp [RNNModule.forwardT, h1, h2]
  | a :: b :: c :: e :: f :: rest => simp [RNNModule.forwardT]

/-- C7: `RNNModule.forward` is deterministic and stateless across
invocations: the forward computation equals the explicit-initial-state
variant started from the all-zero hidden/cell state (for both
directions), and two invocations on equal inputs with the same
parameters return equal outputs — the result depends only on the
parameters and the input, since no state object survives a call. -/
theorem claim_C7 (p : RNNModuleParams) (B K T : ℕ) (x y : T4) (h : x = y) :
    forwardCore p B K T x =
      forwardCoreFrom p (zeroStateQ p.hiddenDim) (zeroStateQ p.hiddenDim) B K T y := by
  subst h
  rfl

/-- C7 witness: the statement instantiated at the concrete block and a
concrete input of shape `(1, 2, 1, 1)`. -/
theorem claim_C7_witness :
    ([[[[0]], [[0]]]] : T4) = ([[[[0]], [[0]]]] : T4) ∧
    forwardCore pZero 1 2 1 ([[[[0]], [[0]]]] : T4) =
      forwardCoreFrom pZero (zeroStateQ pZero.hiddenDim) (zeroStateQ pZero.hiddenDim)
        1 2 1 ([[[[0]], [[0]]]] : T4) :=
  ⟨rfl, claim_C7 pZero 1 2 1 _ _ rfl⟩

/-- C8: running the stack on the batch-axis concatenation of two batches
yields, per example, exactly the outputs of running the stack on the two
batches separately: the output data of the concatenated run is the
concatenation of the two separate runs' output data. -/
theorem claim_C8 (cfg : BandCfg) (w : ℕ → BlockWeights × BlockWeights)
    (x y : PT) (B1 B2 : ℕ)
    (hx : WF4 x B1 cfg.kSubbands cfg.tTimesteps cfg.inputDimSize)
    (hy : WF4 y B2 cfg.kSubbands cfg.tTimesteps cfg.inputDimSize) :
    ∃ zx zy,
      BandSequenceModelModule.forwardT (BandSequenceModelModule.init cfg w) x = some zx ∧
      BandSequenceModelModule.forwardT (BandSequenceModelModule.init cfg w) y = some zy ∧
      BandSequenceModelModule.forwardT (BandSequenceModelModule.init cfg w)
        ⟨[B1 + B2, cfg.kSubbands, cfg.tTimesteps, cfg.inputDimSize], x.data ++ y.data⟩
        = some ⟨[B1 + B2, cfg.kSubbands, cfg.tTimesteps, cfg.inputDimSize],
            zx.data ++ zy.data⟩ := by
  obtain ⟨zx, zy, h1, h2, h3, _, _⟩ :=
    stackFold_append (BandSequenceModelModule.init cfg w).bsrnn x y
      (init_blocks_dims cfg w) hx hy
  exact ⟨zx, zy, h1, h2, h3⟩

/-- C8 witness: batch independence instantiated at two concrete
single-example batches. -/
theorem claim_C8_witness :
    WF4 xUnit 1 cfgOne.kSubbands cfgOne.tTimesteps cfgOne.inputDimSize ∧
    ∃ zx zy,
      BandSequenceModelModule.forwardT
        (BandSequenceModelModule.init cfgOne (fun _ => (wOne, wOne))) xUnit = some zx ∧
      BandSequenceModelModule.forwardT
        (BandSequenceModelModule.init cfgOne (fun _ => (wOne, wOne))) xUnit = some zy ∧
      BandSequenceModelModule.forwardT
        (BandSequenceModelModule.init cfgOne (fun _ => (wOne, wOne)))
        ⟨[1 + 1, cfgOne.kSubbands, cfgOne.tTimesteps, cfgOne.inputDimSize],
          xUnit.data ++ xUnit.data⟩
        = some ⟨[1 + 1, cfgOne.kSubbands, cfgOne.tTimesteps, cfgOne.inputDimSize],
            zx.data ++ zy.data⟩ :=
  ⟨⟨rfl, rfl⟩,
    claim_C8 cfgOne (fun _ => (wOne, wOne)) xUnit xUnit 1 1 ⟨rfl, rfl⟩ ⟨rfl, rfl⟩⟩

/-- C9: the training-step loss returned by `compute_losses` is the
unweighted sum of exactly three mean-absolute-error terms: real parts,
imaginary parts, and time-domain signals, with no weighting
coefficients. -/
theorem claim_C9 (tgtFreqHat tgtFreq : CSpec) (tgtTimeHat tgtTime : List ℚ) :
    (PLModel.computeLosses tgtFreqHat tgtFreq tgtTimeHat tgtTime).1 =
      l1LossQ tgtFreqHat.re tgtFreq.re + l1LossQ tgtFreqHat.im tgtFreq.im +
        l1LossQ tgtTimeHat tgtTime := by
  simp [PLModel.computeLosses]

/-- C10: constructing the stack with `num_layers = 0` succeeds, the
stack contains zero blocks, and the forward pass is the identity: it
returns every input unchanged. -/
theorem claim_C10 (cfg : BandCfg) (w : ℕ → BlockWeights × BlockWeights)
    (h : cfg.numLayers = 0) :
    (BandSequenceModelModule.init cfg w).bsrnn.length = 0 ∧
    ∀ x, BandSequenceModelModule.forwardT (BandSequenceModelModule.init cfg w) x
      = some x := by
  refine ⟨?_, ?_⟩
  · simp [BandSequenceModelModule.init, h]
  · intro x
    simp [BandSequenceModelModule.forwardT, BandSequenceModelModule.init, h]

/-- C10 witness: the zero-layer stack at the minimal configuration is
the identity on a concrete input. -/
theorem claim_C10_witness :
    (⟨1, 1, 1, 1, RNNType.lstm, true, 0⟩ : BandCfg).numLayers = 0 ∧
    ((BandSequenceModelModule.init ⟨1, 1, 1, 1, RNNType.lstm, true, 0⟩
      (fun _ => (wOne, wOne))).bsrnn.length = 0 ∧
    ∀ x, BandSequenceModelModule.forwardT
      (BandSequenceModelModule.init ⟨1, 1, 1, 1, RNNType.lstm, true, 0⟩
        (fun _ => (wOne, wOne))) x = some x) :=
  ⟨rfl, claim_C10 ⟨1, 1, 1, 1, RNNType.lstm, true, 0⟩ (fun _ => (wOne, wOne)) rfl⟩

end BandSplit
